import Mathlib

/-!
Shallow embedding of `chroot/run_linux.go` (package `chroot`) and proofs of
the claims about it.  Pure functions of the Go source are translated into
Lean functions; syscall results (stat, statfs, mount, unmount outcomes) are
passed in explicitly as parameters, so every definition is executable.
-/

namespace Chroot

/-! ## Capabilities (`setCapabilities`, run_linux.go lines 367-422) -/

/-- The five capability set types of `gocapability`'s `CapType` that
`setCapabilities` builds its `capMap` over. -/
inductive CapType where
  | bounding
  | effective
  | inheritable
  | permitted
  | ambient
deriving DecidableEq, Repr

/-- The capability name lists of `spec.Process.Capabilities` (OCI
`LinuxCapabilities`).  The Go code reads the `Bounding`, `Effective`,
`Permitted` and `Ambient` fields; the `Inheritable` field exists in the
external type but is never read by `setCapabilities`. -/
structure LinuxCapabilities where
  bounding : List String
  effective : List String
  inheritable : List String
  permitted : List String
  ambient : List String
deriving DecidableEq, Repr

/-- The `capMap` of `setCapabilities`: the list of names requested for each
capability set type.  `INHERITABLE` is mapped to the literal empty list
(`capability.INHERITABLE: []string{}`). -/
def capMap (spec : LinuxCapabilities) : CapType → List String
  | .bounding => spec.bounding
  | .effective => spec.effective
  | .inheritable => []
  | .permitted => spec.permitted
  | .ambient => spec.ambient

deriving instance DecidableEq for Except

/-- Model of Go's `strings.EqualFold`: case-insensitive string equality,
realised by folding every character to lower case. -/
def eqFold (a b : String) : Bool := a.data.map Char.toLower == b.data.map Char.toLower

/-- The inner resolution loop of `setCapabilities`: scan `knownCaps`
(`capability.List()`, modelled as a list of (number, name) pairs) for the
first capability `c` with `strings.EqualFold("CAP_"+c.String(), capToSet)`;
`none` models the `noCap` sentinel surviving the loop. -/
def resolveCap (known : List (Nat × String)) (capToSet : String) : Option Nat :=
  (known.find? (fun c => eqFold ("CAP_" ++ c.2) capToSet)).map (fun c => c.1)

/-- `caps.Set(capType, cap)` on one set, modelled as insert-if-absent into
the list representing the bitset. -/
def capSetInsert (s : List Nat) (c : Nat) : List Nat :=
  if c ∈ s then s else s ++ [c]

/-- The first inner loop of `setCapabilities` for one `capType`: resolve
every requested name and `Set` it; an unresolvable name is the error
`error mapping capability %q to a number`. -/
def setCapList (known : List (Nat × String)) (start : List Nat) (capList : List String) :
    Except String (List Nat) :=
  capList.foldlM
    (fun acc capToSet =>
      match resolveCap known capToSet with
      | none => .error ("error mapping capability " ++ capToSet ++ " to a number")
      | some c => .ok (capSetInsert acc c))
    start

/-- The second inner loop of `setCapabilities` for one `capType`: resolve
every keep name; `Set` it only when `currentCaps.Get(capType, cap)` holds. -/
def setKeepList (known : List (Nat × String)) (current : CapType → Nat → Bool)
    (t : CapType) (start : List Nat) (keepCaps : List String) :
    Except String (List Nat) :=
  keepCaps.foldlM
    (fun acc capToSet =>
      match resolveCap known capToSet with
      | none => .error ("error mapping capability " ++ capToSet ++ " to a number")
      | some c => .ok (if current t c then capSetInsert acc c else acc))
    start

/-- One iteration of the outer `for capType, capList := range capMap` loop:
the requested list for the type, then the keep list. -/
def setCapsForType (known : List (Nat × String)) (current : CapType → Nat → Bool)
    (spec : LinuxCapabilities) (keepCaps : List String) (t : CapType) :
    Except String (List Nat) := do
  let s ← setCapList known [] (capMap spec t)
  setKeepList known current t s keepCaps

/-- The five capability sets held by the fresh `caps` object when
`caps.Apply(capability.CAPS | capability.BOUNDS | capability.AMBS)` runs. -/
structure CapSets where
  bounding : List Nat
  effective : List Nat
  inheritable : List Nat
  permitted : List Nat
  ambient : List Nat
deriving DecidableEq, Repr

/-- Projection of a `CapSets` at a `CapType`. -/
def CapSets.get (cs : CapSets) : CapType → List Nat
  | .bounding => cs.bounding
  | .effective => cs.effective
  | .inheritable => cs.inheritable
  | .permitted => cs.permitted
  | .ambient => cs.ambient

/-- `setCapabilities` (run_linux.go lines 367-422): starting from an empty
`caps` object, fill each of the five set types from `capMap` plus the keep
list, then apply.  `current` is the loaded capability state of the current
process (`currentCaps`); the applied sets are returned. -/
def setCapabilities (known : List (Nat × String)) (current : CapType → Nat → Bool)
    (spec : LinuxCapabilities) (keepCaps : List String) :
    Except String CapSets := do
  let b ← setCapsForType known current spec keepCaps .bounding
  let e ← setCapsForType known current spec keepCaps .effective
  let i ← setCapsForType known current spec keepCaps .inheritable
  let p ← setCapsForType known current spec keepCaps .permitted
  let a ← setCapsForType known current spec keepCaps .ambient
  return { bounding := b, effective := e, inheritable := i, permitted := p, ambient := a }

theorem mem_capSetInsert (s : List Nat) (c x : Nat) :
    x ∈ capSetInsert s c ↔ x ∈ s ∨ x = c := by
  unfold capSetInsert
  by_cases h : c ∈ s
  · simp only [if_pos h]
    constructor
    · exact fun hx => Or.inl hx
    · rintro (hx | rfl)
      · exact hx
      · exact h
  · simp [if_neg h]

theorem setCapList_ok_mem (known : List (Nat × String)) :
    ∀ (capList : List String) (start out : List Nat),
    setCapList known start capList = .ok out →
    ∀ x, x ∈ out ↔ x ∈ start ∨ ∃ s ∈ capList, resolveCap known s = some x := by
  intro capList
  induction capList with
  | nil =>
    intro start out h x
    simp only [setCapList, List.foldlM_nil] at h
    cases h
    simp
  | cons hd tl ih =>
    intro start out h x
    simp only [setCapList, List.foldlM_cons] at h
    cases hres : resolveCap known hd with
    | none => rw [hres] at h; simp [bind, Except.bind] at h
    | some c =>
      rw [hres] at h
      simp only [bind, Except.bind] at h
      have := ih (capSetInsert start c) out h x
      rw [this, mem_capSetInsert]
      constructor
      · rintro ((hx | rfl) | ⟨s, hs, hr⟩)
        · exact Or.inl hx
        · exact Or.inr ⟨hd, by simp, hres⟩
        · exact Or.inr ⟨s, by simp [hs], hr⟩
      · rintro (hx | ⟨s, hs, hr⟩)
        · exact Or.inl (Or.inl hx)
        · rcases List.mem_cons.mp hs with rfl | hs'
          · exact Or.inl (Or.inr (by rw [hres] at hr; exact (Option.some.inj hr).symm))
          · exact Or.inr ⟨s, hs', hr⟩

theorem setKeepList_ok_mem (known : List (Nat × String)) (current : CapType → Nat → Bool)
    (t : CapType) :
    ∀ (keepCaps : List String) (start out : List Nat),
    setKeepList known current t start keepCaps = .ok out →
    ∀ x, x ∈ out ↔ x ∈ start ∨
      ∃ s ∈ keepCaps, resolveCap known s = some x ∧ current t x = true := by
  intro keepCaps
  induction keepCaps with
  | nil =>
    intro start out h x
    simp only [setKeepList, List.foldlM_nil] at h
    cases h
    simp
  | cons hd tl ih =>
    intro start out h x
    simp only [setKeepList, List.foldlM_cons] at h
    cases hres : resolveCap known hd with
    | none => rw [hres] at h; simp [bind, Except.bind] at h
    | some c =>
      rw [hres] at h
      simp only [bind, Except.bind] at h
      have := ih (if current t c then capSetInsert start c else start) out h x
      rw [this]
      by_cases hcur : current t c
      · rw [if_pos hcur] at *
        rw [mem_capSetInsert]
        constructor
        · rintro ((hx | rfl) | ⟨s, hs, hr, hc⟩)
          · exact Or.inl hx
          · exact Or.inr ⟨hd, by simp, hres, hcur⟩
          · exact Or.inr ⟨s, by simp [hs], hr, hc⟩
        · rintro (hx | ⟨s, hs, hr, hc⟩)
          · exact Or.inl (Or.inl hx)
          · rcases List.mem_cons.mp hs with rfl | hs'
            · exact Or.inl (Or.inr (by rw [hres] at hr; exact (Option.some.inj hr).symm))
            · exact Or.inr ⟨s, hs', hr, hc⟩
      · rw [if_neg hcur] at *
        constructor
        · rintro (hx | ⟨s, hs, hr, hc⟩)
          · exact Or.inl hx
          · exact Or.inr ⟨s, by simp [hs], hr, hc⟩
        · rintro (hx | ⟨s, hs, hr, hc⟩)
          · exact Or.inl hx
          · rcases List.mem_cons.mp hs with rfl | hs'
            · rw [hres] at hr
              cases Option.some.inj hr
              exact absurd hc (by simpa using hcur)
            · exact Or.inr ⟨s, hs', hr, hc⟩

theorem setCapsForType_ok_mem (known : List (Nat × String)) (current : CapType → Nat → Bool)
    (spec : LinuxCapabilities) (keepCaps : List String) (t : CapType) (out : List Nat)
    (h : setCapsForType known current spec keepCaps t = .ok out) :
    ∀ x, x ∈ out ↔ (∃ s ∈ capMap spec t, resolveCap known s = some x) ∨
      ∃ s ∈ keepCaps, resolveCap known s = some x ∧ current t x = true := by
  intro x
  unfold setCapsForType at h
  cases h1 : setCapList known [] (capMap spec t) with
  | error e => rw [h1] at h; exact absurd h (by simp [bind, Except.bind])
  | ok s1 =>
    rw [h1] at h
    simp only [bind, Except.bind] at h
    have hmem1 := setCapList_ok_mem known (capMap spec t) [] s1 h1 x
    have hmem2 := setKeepList_ok_mem known current t keepCaps s1 out h x
    rw [hmem2, hmem1]
    simp

theorem setCapabilities_ok_get (known : List (Nat × String)) (current : CapType → Nat → Bool)
    (spec : LinuxCapabilities) (keepCaps : List String) (cs : CapSets)
    (h : setCapabilities known current spec keepCaps = .ok cs) (t : CapType) :
    setCapsForType known current spec keepCaps t = .ok (cs.get t) := by
  unfold setCapabilities at h
  cases hb : setCapsForType known current spec keepCaps .bounding with
  | error e => rw [hb] at h; exact absurd h (by simp [bind, Except.bind])
  | ok b =>
  rw [hb] at h
  cases he : setCapsForType known current spec keepCaps .effective with
  | error e => rw [he] at h; exact absurd h (by simp [bind, Except.bind])
  | ok e =>
  rw [he] at h
  cases hi : setCapsForType known current spec keepCaps .inheritable with
  | error e => rw [hi] at h; exact absurd h (by simp [bind, Except.bind])
  | ok i =>
  rw [hi] at h
  cases hp : setCapsForType known current spec keepCaps .permitted with
  | error e => rw [hp] at h; exact absurd h (by simp [bind, Except.bind])
  | ok p =>
  rw [hp] at h
  cases ha : setCapsForType known current spec keepCaps .ambient with
  | error e => rw [ha] at h; exact absurd h (by simp [bind, Except.bind])
  | ok a =>
  rw [ha] at h
  simp only [bind, Except.bind, pure, Except.pure, Except.ok.injEq] at h
  subst h
  cases t <;> simpa [CapSets.get] using (by assumption)

/-- Claim C1: for every capability name requested as a "keep" capability, if
the current process does not possess the resolved capability `x` in a given
capability set type `t` (and `x` is not independently requested by the
specification for `t`), then the applied value of set `t` does not contain
`x`: the keep mechanism never grants authority the process lacks. -/
theorem keep_capability_never_grants_authority
    (known : List (Nat × String)) (current : CapType → Nat → Bool)
    (spec : LinuxCapabilities) (keepCaps : List String) (cs : CapSets)
    (t : CapType) (x : Nat)
    (hok : setCapabilities known current spec keepCaps = .ok cs)
    (hcur : current t x = false)
    (hspec : ¬ ∃ s ∈ capMap spec t, resolveCap known s = some x) :
    x ∉ cs.get t := by
  have h := setCapsForType_ok_mem known current spec keepCaps t (cs.get t)
    (setCapabilities_ok_get known current spec keepCaps cs hok t) x
  intro hx
  rcases h.mp hx with hs | ⟨s, hsk, hr, hc⟩
  · exact hspec hs
  · rw [hcur] at hc
    exact absurd hc (by decide)

/-- Witness for the C1 theorem: a process whose current capability state is
everywhere empty requests `CAP_SETUID` as a keep capability; the applied
permitted set does not contain capability number 7 (`CAP_SETUID`). -/
theorem keep_capability_never_grants_authority_witness :
    setCapabilities [(7, "SETUID"), (0, "CHOWN")] (fun _ _ => false)
      ⟨["CAP_CHOWN"], [], [], [], []⟩ ["CAP_SETUID"] = .ok ⟨[0], [], [], [], []⟩ ∧
    7 ∉ CapSets.get ⟨[0], [], [], [], []⟩ .permitted :=
  ⟨by decide,
    keep_capability_never_grants_authority [(7, "SETUID"), (0, "CHOWN")] (fun _ _ => false)
      ⟨["CAP_CHOWN"], [], [], [], []⟩ ["CAP_SETUID"] ⟨[0], [], [], [], []⟩
      .permitted 7 (by decide) rfl (by decide)⟩

/-- Claim C2 counterexample: the applied inheritable set is not always
empty.  With a current process that holds every capability everywhere and
keep list `["CAP_SETUID"]`, `setCapabilities` places capability 7 into the
inheritable set (the keep loop of run_linux.go lines 402-416 runs for the
`INHERITABLE` entry of `capMap` too). -/
theorem inheritable_set_not_always_empty :
    setCapabilities [(7, "SETUID")] (fun _ _ => true) ⟨[], [], [], [], []⟩ ["CAP_SETUID"]
      = .ok ⟨[7], [7], [7], [7], [7]⟩ ∧ ([7] : List Nat) ≠ [] :=
  ⟨by decide, by decide⟩

/-- Claim C2 amended: the specification never contributes to the applied
inheritable set (its `capMap` entry is the empty list), and a capability is
in the applied inheritable set exactly when some keep name resolves to it
and the current process already holds it in its inheritable set; in
particular the inheritable set is empty whenever the keep list is empty or
the current inheritable set is. -/
theorem inheritable_only_from_held_keeps
    (known : List (Nat × String)) (current : CapType → Nat → Bool)
    (spec : LinuxCapabilities) (keepCaps : List String) (cs : CapSets)
    (hok : setCapabilities known current spec keepCaps = .ok cs) (x : Nat) :
    x ∈ cs.inheritable ↔
      ∃ s ∈ keepCaps, resolveCap known s = some x ∧ current .inheritable x = true := by
  have h := setCapsForType_ok_mem known current spec keepCaps .inheritable
    (cs.get .inheritable) (setCapabilities_ok_get known current spec keepCaps cs hok .inheritable) x
  simpa [capMap, CapSets.get] using h

/-- Witness for the amended C2 theorem at a concrete input. -/
theorem inheritable_only_from_held_keeps_witness :
    setCapabilities [(7, "SETUID")] (fun _ _ => true) ⟨[], [], [], [], []⟩ ["CAP_SETUID"]
      = .ok ⟨[7], [7], [7], [7], [7]⟩ ∧
    (7 ∈ (CapSets.mk [7] [7] [7] [7] [7]).inheritable ↔
      ∃ s ∈ ["CAP_SETUID"], resolveCap [(7, "SETUID")] s = some 7 ∧
        (fun (_ : CapType) (_ : Nat) => true) CapType.inheritable 7 = true) :=
  ⟨by decide,
    inheritable_only_from_held_keeps [(7, "SETUID")] (fun _ _ => true)
      ⟨[], [], [], [], []⟩ ["CAP_SETUID"] ⟨[7], [7], [7], [7], [7]⟩ (by decide) 7⟩

/-! ## Chroot entry and verification (`runUsingChrootExecMain`, lines 145-165) -/

/-- The `(device, inode)` part of a `unix.Stat_t`. -/
structure StatT where
  dev : Nat
  ino : Nat
deriving DecidableEq, Repr

/-- Outcomes of the syscalls issued by the chroot entry sequence: the
`stat` of the intended root, the `chdir` into it, the `chroot` call, and the
`stat` of `"/"` afterwards (`none` models a failed stat). -/
structure ChrootWorld where
  statRoot : Option StatT
  chdirOk : Bool
  chrootOk : Bool
  statSlash : Option StatT
deriving DecidableEq, Repr

/-- Result of one bootstrap stage: continue, or `os.Exit(code)`. -/
inductive StageResult where
  | ok
  | exitCode (code : Nat)
deriving DecidableEq, Repr

/-- The chroot entry sequence of `runUsingChrootExecMain` (lines 145-165):
stat the intended root, chdir into it, chroot, stat `"/"`, and exit with
status 1 unless the recorded `(Dev, Ino)` pair equals the post-chroot pair
for `"/"`.  Every failing syscall also exits with status 1. -/
def chrootStage (w : ChrootWorld) : StageResult :=
  match w.statRoot with
  | none => .exitCode 1
  | some oldst =>
    if !w.chdirOk then .exitCode 1
    else if !w.chrootOk then .exitCode 1
    else
      match w.statSlash with
      | none => .exitCode 1
      | some newst =>
        if oldst.dev != newst.dev || oldst.ino != newst.ino then .exitCode 1
        else .ok

/-- Claim C4: when the syscalls themselves succeed, the chroot entry accepts
exactly when the `(device, inode)` pair recorded before chdir equals the
pair obtained by stat of `"/"` after the chroot; if either component
differs, the stage terminates with exit status 1 instead of proceeding. -/
theorem chroot_integrity_check (w : ChrootWorld) (o n : StatT)
    (hroot : w.statRoot = some o) (hchdir : w.chdirOk = true)
    (hchroot : w.chrootOk = true) (hslash : w.statSlash = some n) :
    (chrootStage w = .ok ↔ (o.dev = n.dev ∧ o.ino = n.ino)) ∧
    ((o.dev ≠ n.dev ∨ o.ino ≠ n.ino) → chrootStage w = .exitCode 1) := by
  unfold chrootStage
  rw [hroot, hchdir, hchroot, hslash]
  by_cases h1 : o.dev = n.dev <;> by_cases h2 : o.ino = n.ino <;>
    simp [h1, h2]

/-- Witness for the C4 theorem: same device but different inode is rejected
with exit status 1; equal pairs are accepted. -/
theorem chroot_integrity_check_witness :
    (chrootStage ⟨some ⟨5, 2⟩, true, true, some ⟨5, 3⟩⟩ = .exitCode 1) ∧
    (chrootStage ⟨some ⟨5, 2⟩, true, true, some ⟨5, 2⟩⟩ = .ok) :=
  ⟨(chroot_integrity_check ⟨some ⟨5, 2⟩, true, true, some ⟨5, 3⟩⟩ ⟨5, 2⟩ ⟨5, 3⟩
      rfl rfl rfl rfl).2 (Or.inr (by decide)),
   (chroot_integrity_check ⟨some ⟨5, 2⟩, true, true, some ⟨5, 2⟩⟩ ⟨5, 2⟩ ⟨5, 2⟩
      rfl rfl rfl rfl).1.mpr ⟨rfl, rfl⟩⟩

/-! ## Masked-path handling (`setupChrootBindMounts`, lines 801-901, and
`isDevNull`, lines 482-495) -/

/-- `isDevNull` (lines 482-495): a target is the null device when it is a
character device, the stat of `os.DevNull` succeeds, and the two `Rdev`
numbers agree. -/
def isDevNull (isCharDevice statNullOk : Bool) (rdev nullRdev : Nat) : Bool :=
  if isCharDevice then
    if !statNullOk then false
    else if rdev == nullRdev then true
    else false
  else false

/-- What the masking step mounts over one masked path. -/
inductive MaskAction where
  | noMount
  | mountEmptyDirReadOnly
  | bindNullDevice
deriving DecidableEq, Repr

/-- The per-path decision of the masking loop (lines 816-900): a directory
is overmounted with the read-only empty directory iff `!isReadOnly ||
(hasContent && isAccessible)`; a non-directory is bound to the null device
iff it is not already the null device. -/
def maskedPathAction (isDir isReadOnly hasContent isAccessible devNull : Bool) : MaskAction :=
  if isDir then
    if !isReadOnly || (hasContent && isAccessible) then .mountEmptyDirReadOnly
    else .noMount
  else
    if !devNull then .bindNullDevice
    else .noMount

/-- Claim C5: the masking decision table.  A masked directory triggers no
mount exactly when it is already read-only and not both non-empty and
accessible (in particular an already-read-only empty directory triggers no
mount); a writable directory, or a non-empty accessible one, is overmounted
with the empty directory read-only; a non-directory triggers no mount
exactly when it already is the null device, and is bound to the null device
otherwise. -/
theorem masking_decision_table (isDir isReadOnly hasContent isAccessible devNull : Bool) :
    (maskedPathAction isDir isReadOnly hasContent isAccessible devNull = .noMount ↔
      ((isDir = true ∧ isReadOnly = true ∧ ¬(hasContent = true ∧ isAccessible = true)) ∨
       (isDir = false ∧ devNull = true))) ∧
    (maskedPathAction isDir isReadOnly hasContent isAccessible devNull
        = .mountEmptyDirReadOnly ↔
      (isDir = true ∧ (isReadOnly = false ∨ (hasContent = true ∧ isAccessible = true)))) ∧
    (maskedPathAction isDir isReadOnly hasContent isAccessible devNull = .bindNullDevice ↔
      (isDir = false ∧ devNull = false)) := by
  cases isDir <;> cases isReadOnly <;> cases hasContent <;> cases isAccessible <;>
    cases devNull <;> decide

/-! ## Masked-directory accessibility (lines 822-851) -/

/-- File mode permission bit constants used by the accessibility check. -/
def S_IROTH : Nat := 4

/-- Other-execute permission bit. -/
def S_IXOTH : Nat := 1

/-- Owner-read permission bit. -/
def S_IRUSR : Nat := 256

/-- Owner-execute permission bit. -/
def S_IXUSR : Nat := 64

/-- Group-read permission bit. -/
def S_IRGRP : Nat := 32

/-- Group-execute permission bit. -/
def S_IXGRP : Nat := 8

/-- One entry of `spec.Linux.UIDMappings` / `GIDMappings`
(OCI `LinuxIDMapping`). -/
structure LinuxIDMapping where
  containerID : Nat
  hostID : Nat
  size : Nat
deriving DecidableEq, Repr

/-- The range test of the mapping loops (lines 834-839, 843-849):
`id >= mapping.ContainerID && id < mapping.ContainerID+mapping.Size` for
some mapping, with the empty mapping list yielding false (the `len > 0`
guard). -/
def idInMappings (id : Nat) (mappings : List LinuxIDMapping) : Bool :=
  mappings.any (fun m => m.containerID ≤ id && id < m.containerID + m.size)

/-- The accessibility computation for a masked directory, translated
operator-for-operator from lines 828-851.  Go's `&` binds tighter than `|`,
so `stat.Mode&unix.S_IROTH|unix.S_IXOTH != 0` parses as
`((mode &&& S_IROTH) ||| S_IXOTH) != 0` — note both the first and the second
guard use the other-permission masks. -/
def isAccessibleCheck (mode uid gid : Nat)
    (uidMappings gidMappings : List LinuxIDMapping) : Bool :=
  let a0 : Bool := false
  let a1 : Bool := if ((mode &&& S_IROTH) ||| S_IXOTH) != 0 then true else a0
  let a2 : Bool :=
    if !a1 && (((mode &&& S_IROTH) ||| S_IXOTH) != 0) then
      if idInMappings gid gidMappings then true else a1
    else a1
  let a3 : Bool :=
    if !a2 && (((mode &&& S_IRUSR) ||| S_IXUSR) != 0) then
      if idInMappings uid uidMappings then true else a2
    else a2
  a3

/-- Modelled from the claim's intended grouped semantics: accessible iff the
other read/execute bits are set, or the group read/execute bits are set and
the gid falls inside a configured GID-mapping range, or the owner
read/execute bits are set and the uid falls inside a configured UID-mapping
range. -/
def claimedAccessible (mode uid gid : Nat)
    (uidMappings gidMappings : List LinuxIDMapping) : Bool :=
  ((mode &&& (S_IROTH ||| S_IXOTH)) != 0) ||
  (((mode &&& (S_IRGRP ||| S_IXGRP)) != 0) && idInMappings gid gidMappings) ||
  (((mode &&& (S_IRUSR ||| S_IXUSR)) != 0) && idInMappings uid uidMappings)

/-- Claim C3 (code bug): the code's accessibility bit is `true` for every
mode, uid, gid and mapping configuration, because Go operator precedence
turns `stat.Mode&unix.S_IROTH|unix.S_IXOTH` into `(mode &&& 4) ||| 1`,
which is never zero; the claimed semantics instead yields `false` for a
directory with mode 0 and no mappings. -/
theorem maskedDir_accessibility_always_true :
    (∀ mode uid gid uidMappings gidMappings,
      isAccessibleCheck mode uid gid uidMappings gidMappings = true) ∧
    claimedAccessible 0 0 0 [] [] = false := by
  constructor
  · intro mode uid gid uidMappings gidMappings
    unfold isAccessibleCheck
    have h : ((mode &&& S_IROTH) ||| S_IXOTH) != 0 := by
      have : (mode &&& S_IROTH) ||| S_IXOTH ≠ 0 := by
        intro hz
        have h0 := congrArg (fun x => Nat.testBit x 0) hz
        simp [Nat.testBit_lor, S_IXOTH] at h0
      simpa using this
    simp [h]
  · decide

/-! ## Generic mount loop filters (`setupChrootBindMounts`, lines 606-627) -/

/-- One entry of `spec.Mounts` (OCI `Mount`). -/
structure MountEntry where
  destination : String
  source : String
  type : String
  options : List String
deriving DecidableEq, Repr

/-- The destination filter at the head of the generic mount loop (lines
608-622): the `switch` skips `/dev`, `/proc` and `/sys` themselves, and the
default case skips any destination with prefix `/dev/`, `/proc/` or
`/sys/`. -/
def skipSpecialDest (dest : String) : Bool :=
  dest == "/dev" || dest == "/proc" || dest == "/sys" ||
  dest.startsWith "/dev/" || dest.startsWith "/proc/" || dest.startsWith "/sys/"

/-- The type filter (lines 624-627): only `bind`, `tmpfs` and `overlay`
entries survive. -/
def mountTypeAllowed (t : String) : Bool :=
  t == "bind" || t == "tmpfs" || t == "overlay"

/-- Whether the generic mount loop gets past both skip filters for an entry
and performs a mount for it. -/
def mountLoopProcesses (m : MountEntry) : Bool :=
  !skipSpecialDest m.destination && mountTypeAllowed m.type

/-- Claim C6: the generic mount loop mounts an entry exactly when its
destination is none of `/dev`, `/proc`, `/sys` and is not a subpath of them
(formalised as carrying one of them followed by a path separator as a
prefix), and its type is one of `bind`, `tmpfs`, `overlay`. -/
theorem generic_mount_loop_filter (m : MountEntry) :
    mountLoopProcesses m = true ↔
      (¬(m.destination = "/dev" ∨ m.destination = "/proc" ∨ m.destination = "/sys" ∨
         m.destination.startsWith "/dev/" = true ∨
         m.destination.startsWith "/proc/" = true ∨
         m.destination.startsWith "/sys/" = true) ∧
       (m.type = "bind" ∨ m.type = "tmpfs" ∨ m.type = "overlay")) := by
  unfold mountLoopProcesses skipSpecialDest mountTypeAllowed
  simp [not_or, and_assoc, or_assoc]

/-! ## Mount option flag translation (lines 521-522 and 677-706) -/

/-- `unix.MS_RDONLY`. -/
def MS_RDONLY : Nat := 1

/-- `unix.MS_NOSUID`. -/
def MS_NOSUID : Nat := 2

/-- `unix.MS_NODEV`. -/
def MS_NODEV : Nat := 4

/-- `unix.MS_NOEXEC`. -/
def MS_NOEXEC : Nat := 8

/-- `unix.MS_BIND`. -/
def MS_BIND : Nat := 4096

/-- `unix.MS_REC`. -/
def MS_REC : Nat := 16384

/-- `unix.MS_PRIVATE`. -/
def MS_PRIVATE : Nat := 262144

/-- `unix.ST_RDONLY`. -/
def ST_RDONLY : Nat := 1

/-- `unix.ST_NOSUID`. -/
def ST_NOSUID : Nat := 2

/-- `unix.ST_NODEV`. -/
def ST_NODEV : Nat := 4

/-- `unix.ST_NOEXEC`. -/
def ST_NOEXEC : Nat := 8

/-- The 64-bit complement `^uintptr(m)` used by `requestFlags &= ^uintptr(...)`. -/
def uintptrNot (m : Nat) : Nat := (2 ^ 64 - 1) ^^^ m

/-- `commonFlags := uintptr(unix.MS_BIND | unix.MS_REC | unix.MS_PRIVATE)` (line 521). -/
def commonFlags : Nat := MS_BIND ||| MS_REC ||| MS_PRIVATE

/-- `bindFlags := commonFlags | unix.MS_NODEV` (line 522), the initial value
of `requestFlags`. -/
def bindFlags : Nat := commonFlags ||| MS_NODEV

/-- One iteration of the option-translation switch (lines 679-706), acting
on the `(requestFlags, expectedFlags)` pair; unrecognised options fall
through unchanged. -/
def applyMountOption (p : Nat × Nat) (o : String) : Nat × Nat :=
  if o == "nodev" then (p.1 ||| MS_NODEV, p.2 ||| ST_NODEV)
  else if o == "dev" then (p.1 &&& uintptrNot MS_NODEV, p.2 &&& uintptrNot ST_NODEV)
  else if o == "noexec" then (p.1 ||| MS_NOEXEC, p.2 ||| ST_NOEXEC)
  else if o == "exec" then (p.1 &&& uintptrNot MS_NOEXEC, p.2 &&& uintptrNot ST_NOEXEC)
  else if o == "nosuid" then (p.1 ||| MS_NOSUID, p.2 ||| ST_NOSUID)
  else if o == "suid" then (p.1 &&& uintptrNot MS_NOSUID, p.2 &&& uintptrNot ST_NOSUID)
  else if o == "ro" then (p.1 ||| MS_RDONLY, p.2 ||| ST_RDONLY)
  else if o == "rw" then (p.1 &&& uintptrNot MS_RDONLY, p.2 &&& uintptrNot ST_RDONLY)
  else p

/-- The full translation of an option-string list into the
`(requestFlags, expectedFlags)` pair: start from `(bindFlags, 0)` (lines
677-678) and fold the switch over the options in order. -/
def parseMountFlags (options : List String) : Nat × Nat :=
  options.foldl applyMountOption (bindFlags, 0)

/-- Which bit position an option token manipulates, and whether it sets
(`true`) or clears (`false`) it.  The `MS_*` and `ST_*` values of one axis
share the same bit position (1, 2, 4, 8 on both sides). -/
def axisBit (o : String) : Option (Nat × Bool) :=
  if o == "nodev" then some (2, true)
  else if o == "dev" then some (2, false)
  else if o == "noexec" then some (3, true)
  else if o == "exec" then some (3, false)
  else if o == "nosuid" then some (1, true)
  else if o == "suid" then some (1, false)
  else if o == "ro" then some (0, true)
  else if o == "rw" then some (0, false)
  else none

/-- Whether an option token belongs to the axis with tokens
`noTok`/`yesTok`. -/
def isAxisToken (noTok yesTok o : String) : Bool := o == noTok || o == yesTok

/-- The last token of a given axis occurring in an option list. -/
def lastAxisToken (noTok yesTok : String) (options : List String) : Option String :=
  (options.filter (isAxisToken noTok yesTok)).getLast?

theorem testBit_uintptrNot (m b : Nat) (hb : b < 64) :
    (uintptrNot m).testBit b = !(m.testBit b) := by
  unfold uintptrNot
  rw [Nat.testBit_xor, Nat.testBit_two_pow_sub_one]
  simp [hb]

theorem step_set_case (x y m n b : Nat) (hm : m = 2 ^ n) (hb : b < 64) :
    ((x ||| m).testBit b, (y ||| m).testBit b) =
      if b = n then ((true : Bool), true) else (x.testBit b, y.testBit b) := by
  subst hm
  by_cases hbn : b = n
  · subst hbn
    simp [Nat.testBit_lor, Nat.testBit_two_pow]
  · simp [Nat.testBit_lor, Nat.testBit_two_pow, hbn, Ne.symm hbn]

theorem step_clear_case (x y m n b : Nat) (hm : m = 2 ^ n) (hb : b < 64) :
    ((x &&& uintptrNot m).testBit b, (y &&& uintptrNot m).testBit b) =
      if b = n then ((false : Bool), false) else (x.testBit b, y.testBit b) := by
  subst hm
  by_cases hbn : b = n
  · subst hbn
    simp [Nat.testBit_land, testBit_uintptrNot _ _ hb, Nat.testBit_two_pow]
  · simp [Nat.testBit_land, testBit_uintptrNot _ _ hb, Nat.testBit_two_pow, hbn, Ne.symm hbn]

theorem applyMountOption_testBit (p : Nat × Nat) (o : String) (b : Nat) (hb : b < 64) :
    ((applyMountOption p o).1.testBit b, (applyMountOption p o).2.testBit b) =
      (match axisBit o with
       | some (b', v) => if b = b' then (v, v) else (p.1.testBit b, p.2.testBit b)
       | none => (p.1.testBit b, p.2.testBit b)) := by
  unfold applyMountOption axisBit
  split_ifs
  · exact step_set_case p.1 p.2 MS_NODEV 2 b rfl hb
  · exact step_clear_case p.1 p.2 MS_NODEV 2 b rfl hb
  · exact step_set_case p.1 p.2 MS_NOEXEC 3 b rfl hb
  · exact step_clear_case p.1 p.2 MS_NOEXEC 3 b rfl hb
  · exact step_set_case p.1 p.2 MS_NOSUID 1 b rfl hb
  · exact step_clear_case p.1 p.2 MS_NOSUID 1 b rfl hb
  · exact step_set_case p.1 p.2 MS_RDONLY 0 b rfl hb
  · exact step_clear_case p.1 p.2 MS_RDONLY 0 b rfl hb
  · rfl

theorem axisBit_token_cases (o : String) :
    axisBit o = none ∨
    (o = "nodev" ∧ axisBit o = some (2, true)) ∨ (o = "dev" ∧ axisBit o = some (2, false)) ∨
    (o = "noexec" ∧ axisBit o = some (3, true)) ∨ (o = "exec" ∧ axisBit o = some (3, false)) ∨
    (o = "nosuid" ∧ axisBit o = some (1, true)) ∨ (o = "suid" ∧ axisBit o = some (1, false)) ∨
    (o = "ro" ∧ axisBit o = some (0, true)) ∨ (o = "rw" ∧ axisBit o = some (0, false)) := by
  unfold axisBit
  split_ifs with h1 h2 h3 h4 h5 h6 h7 h8 <;> simp_all

theorem parseMountFlags_axis_general (noTok yesTok : String) (b : Nat) (hb : b < 64)
    (hno : axisBit noTok = some (b, true)) (hyes : axisBit yesTok = some (b, false))
    (huniq : ∀ o v, axisBit o = some (b, v) → o = noTok ∨ o = yesTok) (options : List String) :
    ((parseMountFlags options).1.testBit b, (parseMountFlags options).2.testBit b) =
      (match lastAxisToken noTok yesTok options with
       | some t => ((t == noTok : Bool), (t == noTok : Bool))
       | none => (bindFlags.testBit b, false)) := by
  have hne : noTok ≠ yesTok := by
    intro he
    rw [he, hyes] at hno
    simp at hno
  induction options using List.reverseRecOn with
  | nil =>
    simp [parseMountFlags, lastAxisToken, Nat.zero_testBit]
  | append_singleton opts o ih =>
    have hfold : parseMountFlags (opts ++ [o]) = applyMountOption (parseMountFlags opts) o := by
      simp [parseMountFlags, List.foldl_append]
    have hstep := applyMountOption_testBit (parseMountFlags opts) o b hb
    by_cases htok : isAxisToken noTok yesTok o = true
    · have hlast : lastAxisToken noTok yesTok (opts ++ [o]) = some o := by
        unfold lastAxisToken
        rw [List.filter_append]
        simp [htok, List.getLast?_concat]
      rcases (by simpa [isAxisToken] using htok : o = noTok ∨ o = yesTok) with rfl | rfl
      · rw [hfold, hstep, hno, hlast]
        simp
      · rw [hfold, hstep, hyes, hlast]
        simp [hne]
        intro he
        exact absurd he.symm hne
    · have hnto : o ≠ noTok := by
        intro he
        exact htok (by simp [isAxisToken, he])
      have hyto : o ≠ yesTok := by
        intro he
        exact htok (by simp [isAxisToken, he])
      have hlast : lastAxisToken noTok yesTok (opts ++ [o]) = lastAxisToken noTok yesTok opts := by
        unfold lastAxisToken
        rw [List.filter_append]
        simp [List.filter, htok]
      have huntouched :
          ((applyMountOption (parseMountFlags opts) o).1.testBit b,
           (applyMountOption (parseMountFlags opts) o).2.testBit b) =
            ((parseMountFlags opts).1.testBit b, (parseMountFlags opts).2.testBit b) := by
        rw [hstep]
        cases hao : axisBit o with
        | none => rfl
        | some bv =>
          rcases bv with ⟨b', v⟩
          have hbb : ¬ b = b' := by
            intro he
            subst he
            rcases huniq o v hao with rfl | rfl
            · exact hnto rfl
            · exact hyto rfl
          simp [hbb]
      rw [hfold, huntouched, hlast]
      exact ih

/-- Claim C7: for each of the four option axes `nodev/dev`, `noexec/exec`,
`nosuid/suid`, `ro/rw`, whenever the option list contains a token of the
axis, the last such token alone determines the corresponding bit of both
`requestFlags` and `expectedFlags` — set when the last token is the `no`
variant (`ro` for the read-only axis), cleared when it is the positive
variant — regardless of any earlier tokens of that axis. -/
theorem mount_flags_last_axis_token_wins (options : List String) :
    (∀ t, lastAxisToken "nodev" "dev" options = some t →
      (parseMountFlags options).1.testBit 2 = (t == "nodev") ∧
      (parseMountFlags options).2.testBit 2 = (t == "nodev")) ∧
    (∀ t, lastAxisToken "noexec" "exec" options = some t →
      (parseMountFlags options).1.testBit 3 = (t == "noexec") ∧
      (parseMountFlags options).2.testBit 3 = (t == "noexec")) ∧
    (∀ t, lastAxisToken "nosuid" "suid" options = some t →
      (parseMountFlags options).1.testBit 1 = (t == "nosuid") ∧
      (parseMountFlags options).2.testBit 1 = (t == "nosuid")) ∧
    (∀ t, lastAxisToken "ro" "rw" options = some t →
      (parseMountFlags options).1.testBit 0 = (t == "ro") ∧
      (parseMountFlags options).2.testBit 0 = (t == "ro")) := by
  refine ⟨fun t ht => ?_, fun t ht => ?_, fun t ht => ?_, fun t ht => ?_⟩
  · have h := parseMountFlags_axis_general "nodev" "dev" 2 (by decide) (by decide) (by decide)
      (fun o v hov => by
        rcases axisBit_token_cases o with h0 | ⟨rfl, h0⟩ | ⟨rfl, h0⟩ | ⟨rfl, h0⟩ | ⟨rfl, h0⟩ |
          ⟨rfl, h0⟩ | ⟨rfl, h0⟩ | ⟨rfl, h0⟩ | ⟨rfl, h0⟩ <;> rw [h0] at hov <;> simp_all)
      options
    rw [ht] at h
    exact ⟨congrArg Prod.fst h, congrArg Prod.snd h⟩
  · have h := parseMountFlags_axis_general "noexec" "exec" 3 (by decide) (by decide) (by decide)
      (fun o v hov => by
        rcases axisBit_token_cases o with h0 | ⟨rfl, h0⟩ | ⟨rfl, h0⟩ | ⟨rfl, h0⟩ | ⟨rfl, h0⟩ |
          ⟨rfl, h0⟩ | ⟨rfl, h0⟩ | ⟨rfl, h0⟩ | ⟨rfl, h0⟩ <;> rw [h0] at hov <;> simp_all)
      options
    rw [ht] at h
    exact ⟨congrArg Prod.fst h, congrArg Prod.snd h⟩
  · have h := parseMountFlags_axis_general "nosuid" "suid" 1 (by decide) (by decide) (by decide)
      (fun o v hov => by
        rcases axisBit_token_cases o with h0 | ⟨rfl, h0⟩ | ⟨rfl, h0⟩ | ⟨rfl, h0⟩ | ⟨rfl, h0⟩ |
          ⟨rfl, h0⟩ | ⟨rfl, h0⟩ | ⟨rfl, h0⟩ | ⟨rfl, h0⟩ <;> rw [h0] at hov <;> simp_all)
      options
    rw [ht] at h
    exact ⟨congrArg Prod.fst h, congrArg Prod.snd h⟩
  · have h := parseMountFlags_axis_general "ro" "rw" 0 (by decide) (by decide) (by decide)
      (fun o v hov => by
        rcases axisBit_token_cases o with h0 | ⟨rfl, h0⟩ | ⟨rfl, h0⟩ | ⟨rfl, h0⟩ | ⟨rfl, h0⟩ |
          ⟨rfl, h0⟩ | ⟨rfl, h0⟩ | ⟨rfl, h0⟩ | ⟨rfl, h0⟩ <;> rw [h0] at hov <;> simp_all)
      options
    rw [ht] at h
    exact ⟨congrArg Prod.fst h, congrArg Prod.snd h⟩

/-- Witness for the C7 theorem: in `["dev", "ro", "nodev", "rw", "ro"]` the
last `nodev/dev` token is `nodev` and the last `ro/rw` token is `ro`, so
bit 2 and bit 0 are set in both flag words despite the earlier `dev` and
`rw`. -/
theorem mount_flags_last_axis_token_wins_witness :
    (parseMountFlags ["dev", "ro", "nodev", "rw", "ro"]).1.testBit 2 = ("nodev" == "nodev") ∧
    (parseMountFlags ["dev", "ro", "nodev", "rw", "ro"]).2.testBit 0 = ("ro" == "ro") :=
  ⟨((mount_flags_last_axis_token_wins ["dev", "ro", "nodev", "rw", "ro"]).1
      "nodev" (by decide)).1,
   ((mount_flags_last_axis_token_wins ["dev", "ro", "nodev", "rw", "ro"]).2.2.2
      "ro" (by decide)).2⟩

/-! ## Read-only path enforcement (lines 740-787) -/

/-- The observable mount state relevant to read-only enforcement: for each
resolved path, `none` when the path is missing (symlink resolution or
statfs fails with `ENOENT`) and `some ro` when it exists with read-only
statfs flag `ro`. -/
def ROWorld : Type := String → Option Bool

/-- Point update of the world at one path: a self-bind or remount syscall
on a target changes that target's mount flags only. -/
def roUpdate (w : ROWorld) (p : String) (b : Bool) : ROWorld :=
  fun q => if q = p then some b else w q

/-- Enforcement of one read-only path (loop body, lines 740-787).
`bindRO` and `remountRO` say whether the kernel honours `MS_RDONLY` on the
initial self-bind and on the remount respectively.  A missing path is
skipped; a path whose statfs flags already contain `ST_RDONLY` is skipped
with zero mount syscalls (lines 759-761); otherwise the path is bound onto
itself (one syscall), remounted read-only when the first statfs check still
shows writable (a second syscall), and the final verification (lines
781-786) fails when the path is still not read-only.  Returns the updated
world and the number of mount syscalls issued. -/
def enforceReadOnlyPath (bindRO remountRO : Bool) (w : ROWorld) (p : String) :
    Except Unit (ROWorld × Nat) :=
  match w p with
  | none => .ok (w, 0)
  | some ro =>
    if ro then .ok (w, 0)
    else
      let w1 := roUpdate w p bindRO
      if bindRO then .ok (w1, 1)
      else
        let w2 := roUpdate w1 p remountRO
        if remountRO then .ok (w2, 2)
        else .error ()

/-- The read-only-paths loop over `spec.Linux.ReadonlyPaths`, threading the
world and accumulating the mount syscall count. -/
def enforceReadOnlyPaths (bindRO remountRO : Bool) :
    ROWorld → List String → Except Unit (ROWorld × Nat)
  | w, [] => .ok (w, 0)
  | w, p :: rest =>
    match enforceReadOnlyPath bindRO remountRO w p with
    | .error e => .error e
    | .ok (w1, n) =>
      match enforceReadOnlyPaths bindRO remountRO w1 rest with
      | .error e => .error e
      | .ok (w2, m) => .ok (w2, n + m)

/-- A path state that makes the enforcement skip: missing or already
read-only. -/
def roGood (w : ROWorld) (p : String) : Prop := w p = none ∨ w p = some true

theorem enforceReadOnlyPath_skip (bindRO remountRO : Bool) (w : ROWorld) (p : String)
    (h : roGood w p) : enforceReadOnlyPath bindRO remountRO w p = .ok (w, 0) := by
  rcases h with h | h <;> simp [enforceReadOnlyPath, h]

theorem enforceReadOnlyPath_post (bindRO remountRO : Bool) (w : ROWorld) (p : String)
    (w' : ROWorld) (n : Nat) (h : enforceReadOnlyPath bindRO remountRO w p = .ok (w', n)) :
    roGood w' p ∧ ∀ q, q ≠ p → w' q = w q := by
  unfold enforceReadOnlyPath at h
  cases hwp : w p with
  | none =>
    rw [hwp] at h
    cases h
    exact ⟨Or.inl hwp, fun q _ => rfl⟩
  | some ro =>
    rw [hwp] at h
    cases ro with
    | true =>
      simp only [if_pos] at h
      cases h
      exact ⟨Or.inr hwp, fun q _ => rfl⟩
    | false =>
      simp only [Bool.false_eq_true, if_neg, if_false] at h
      cases hbind : bindRO with
      | true =>
        rw [hbind] at h
        simp only [if_pos] at h
        cases h
        refine ⟨Or.inr ?_, fun q hq => ?_⟩
        · simp [roUpdate]
        · simp [roUpdate, hq]
      | false =>
        rw [hbind] at h
        simp only [Bool.false_eq_true, if_false] at h
        cases hrem : remountRO with
        | true =>
          rw [hrem] at h
          simp only [if_pos] at h
          cases h
          refine ⟨Or.inr ?_, fun q hq => ?_⟩
          · simp [roUpdate]
          · simp [roUpdate, hq]
        | false =>
          rw [hrem] at h
          simp at h

theorem enforceReadOnlyPaths_preserves_good (bindRO remountRO : Bool) :
    ∀ (ps : List String) (w w' : ROWorld) (n : Nat) (q : String),
    roGood w q → enforceReadOnlyPaths bindRO remountRO w ps = .ok (w', n) → roGood w' q := by
  intro ps
  induction ps with
  | nil =>
    intro w w' n q hg h
    cases h
    exact hg
  | cons p rest ih =>
    intro w w' n q hg h
    unfold enforceReadOnlyPaths at h
    cases h1 : enforceReadOnlyPath bindRO remountRO w p with
    | error e => rw [h1] at h; cases h
    | ok wn =>
      rcases wn with ⟨w1, n1⟩
      rw [h1] at h
      dsimp only at h
      have hpost := enforceReadOnlyPath_post bindRO remountRO w p w1 n1 h1
      have hg1 : roGood w1 q := by
        by_cases hq : q = p
        · subst hq; exact hpost.1
        · unfold roGood; rw [hpost.2 q hq]; exact hg
      cases h2 : enforceReadOnlyPaths bindRO remountRO w1 rest with
      | error e => rw [h2] at h; cases h
      | ok wm =>
        rcases wm with ⟨w2, m⟩
        rw [h2] at h
        cases h
        exact ih w1 _ _ q hg1 h2

theorem enforceReadOnlyPaths_final_good (bindRO remountRO : Bool) :
    ∀ (ps : List String) (w w' : ROWorld) (n : Nat),
    enforceReadOnlyPaths bindRO remountRO w ps = .ok (w', n) →
    ∀ p ∈ ps, roGood w' p := by
  intro ps
  induction ps with
  | nil =>
    intro w w' n _ p hp
    cases hp
  | cons p rest ih =>
    intro w w' n h q hq
    unfold enforceReadOnlyPaths at h
    cases h1 : enforceReadOnlyPath bindRO remountRO w p with
    | error e => rw [h1] at h; cases h
    | ok wn =>
      rcases wn with ⟨w1, n1⟩
      rw [h1] at h
      dsimp only at h
      cases h2 : enforceReadOnlyPaths bindRO remountRO w1 rest with
      | error e => rw [h2] at h; cases h
      | ok wm =>
        rcases wm with ⟨w2, m⟩
        rw [h2] at h
        cases h
        rcases List.mem_cons.mp hq with rfl | hq'
        · exact enforceReadOnlyPaths_preserves_good bindRO remountRO rest w1 _ _ q
            (enforceReadOnlyPath_post bindRO remountRO w q w1 n1 h1).1 h2
        · exact ih w1 _ _ h2 q hq'

theorem enforceReadOnlyPaths_all_good (bindRO remountRO : Bool) :
    ∀ (ps : List String) (w : ROWorld), (∀ p ∈ ps, roGood w p) →
    enforceReadOnlyPaths bindRO remountRO w ps = .ok (w, 0) := by
  intro ps
  induction ps with
  | nil =>
    intro w _
    rfl
  | cons p rest ih =>
    intro w hall
    unfold enforceReadOnlyPaths
    rw [enforceReadOnlyPath_skip bindRO remountRO w p (hall p (by simp))]
    dsimp only
    rw [ih w (fun q hq => hall q (by simp [hq]))]

/-- Claim C8: read-only-path enforcement is idempotent.  A path whose
statfs flags already contain the read-only flag receives zero mount or
remount syscalls; consequently, after a first successful run over a path
set, a second run over the same set (under any kernel flag-honouring
behaviour) leaves the world unchanged and performs zero mount syscalls. -/
theorem readonly_enforcement_idempotent :
    (∀ (bindRO remountRO : Bool) (w : ROWorld) (p : String), w p = some true →
      enforceReadOnlyPath bindRO remountRO w p = .ok (w, 0)) ∧
    (∀ (bindRO remountRO bindRO' remountRO' : Bool) (w w' : ROWorld)
       (ps : List String) (n : Nat),
      enforceReadOnlyPaths bindRO remountRO w ps = .ok (w', n) →
      enforceReadOnlyPaths bindRO' remountRO' w' ps = .ok (w', 0)) := by
  constructor
  · intro bindRO remountRO w p h
    exact enforceReadOnlyPath_skip bindRO remountRO w p (Or.inr h)
  · intro bindRO remountRO bindRO' remountRO' w w' ps n h
    exact enforceReadOnlyPaths_all_good bindRO' remountRO' ps w'
      (enforceReadOnlyPaths_final_good bindRO remountRO ps w w' n h)

/-- Witness for the C8 theorem: a world where `/a` is already read-only is
skipped with zero syscalls, and a first run over a writable `/a` (one bind
syscall, honoured by the kernel) makes a second run perform zero
syscalls. -/
theorem readonly_enforcement_idempotent_witness :
    (enforceReadOnlyPath true true (fun _ => some true) "/a"
      = .ok ((fun _ => some true), 0)) ∧
    (enforceReadOnlyPaths true true (fun _ => some false) ["/a"]
      = .ok (roUpdate (fun _ => some false) "/a" true, 1)) ∧
    (enforceReadOnlyPaths false false (roUpdate (fun _ => some false) "/a" true) ["/a"]
      = .ok (roUpdate (fun _ => some false) "/a" true, 0)) :=
  ⟨readonly_enforcement_idempotent.1 true true (fun _ => some true) "/a" rfl,
   rfl,
   readonly_enforcement_idempotent.2 true true false false (fun _ => some false)
     (roUpdate (fun _ => some false) "/a" true) ["/a"] 1 rfl⟩

/-! ## Teardown unmount retry (`undoBinds`, lines 501-517) -/

/-- Classification of an unmount error; the loop condition singles out
`unix.EBUSY` and `unix.EAGAIN`. -/
inductive UnmountErr where
  | ebusy
  | eagain
  | other
deriving DecidableEq, Repr

/-- The loop condition `err2 == unix.EBUSY || err2 == unix.EAGAIN`
(`none` models a nil error, which also exits the loop). -/
def retriable : Option UnmountErr → Bool
  | some .ebusy => true
  | some .eagain => true
  | _ => false

/-- The retry loop of `undoBinds` (lines 504-508).  `outcome k` is the
result of the `k`-th unmount call (`none` = success); `err2` is the result
of the previous call; `idx` is the index of the next call; the fuel is
`50 - retries`.  Each iteration sleeps 50ms and issues one further unmount
call.  Returns the final `err2`, the number of additional calls, and the
list of sleep durations (in ms). -/
def unmountRetryLoop (outcome : Nat → Option UnmountErr) :
    Option UnmountErr → Nat → Nat → Option UnmountErr × Nat × List Nat
  | err2, _, 0 => (err2, 0, [])
  | err2, idx, fuel + 1 =>
    if retriable err2 then
      let r := unmountRetryLoop outcome (outcome idx) (idx + 1) fuel
      (r.1, r.2.1 + 1, 50 :: r.2.2)
    else (err2, 0, [])

/-- `undoBinds` (lines 501-517): one initial detached unmount; on failure
the retry loop runs with 50 retries of budget; a surviving unmount error is
folded into the captured outer error only when that is still nil, and the
captured error is what the handle returns.  The result is the returned
error, the total number of unmount calls, and the sleeps performed. -/
def undoBinds (outcome : Nat → Option UnmountErr) (outerErr : Option UnmountErr) :
    Option UnmountErr × Nat × List Nat :=
  match outcome 0 with
  | none => (outerErr, 1, [])
  | some e =>
    let r := unmountRetryLoop outcome (some e) 1 50
    let ret :=
      match r.1 with
      | none => outerErr
      | some e2 =>
        match outerErr with
        | none => some e2
        | some o => some o
    (ret, r.2.1 + 1, r.2.2)

theorem unmountRetryLoop_spec (outcome : Nat → Option UnmountErr) :
    ∀ (fuel : Nat) (e : Option UnmountErr) (idx : Nat),
    (unmountRetryLoop outcome e idx fuel).2.1 ≤ fuel ∧
    (unmountRetryLoop outcome e idx fuel).2.2 =
      List.replicate (unmountRetryLoop outcome e idx fuel).2.1 50 ∧
    (0 < (unmountRetryLoop outcome e idx fuel).2.1 → retriable e = true) ∧
    (∀ j, j + 1 < (unmountRetryLoop outcome e idx fuel).2.1 →
      retriable (outcome (idx + j)) = true) ∧
    ((unmountRetryLoop outcome e idx fuel).1 =
      if (unmountRetryLoop outcome e idx fuel).2.1 = 0 then e
      else outcome (idx + (unmountRetryLoop outcome e idx fuel).2.1 - 1)) ∧
    ((unmountRetryLoop outcome e idx fuel).2.1 < fuel →
      retriable (unmountRetryLoop outcome e idx fuel).1 = false) := by
  intro fuel
  induction fuel with
  | zero =>
    intro e idx
    refine ⟨Nat.le_refl 0, rfl, ?_, ?_, rfl, ?_⟩
    · intro h; cases h
    · intro j h; cases h
    · intro h; cases h
  | succ fuel ih =>
    intro e idx
    have hloop0 : unmountRetryLoop outcome e idx (fuel + 1) =
        (if retriable e = true then
          ((unmountRetryLoop outcome (outcome idx) (idx + 1) fuel).1,
           (unmountRetryLoop outcome (outcome idx) (idx + 1) fuel).2.1 + 1,
           50 :: (unmountRetryLoop outcome (outcome idx) (idx + 1) fuel).2.2)
        else (e, 0, [])) := rfl
    by_cases hr : retriable e = true
    · obtain ⟨ha, hb, hc, hd, he, hf⟩ := ih (outcome idx) (idx + 1)
      rw [hloop0, if_pos hr]
      dsimp only
      refine ⟨by omega, ?_, fun _ => hr, ?_, ?_, ?_⟩
      · rw [hb, List.replicate_succ]
      · intro j hj
        cases j with
        | zero =>
          have h0 : 0 < (unmountRetryLoop outcome (outcome idx) (idx + 1) fuel).2.1 := by
            omega
          simpa using hc h0
        | succ j' =>
          have h1 : j' + 1 < (unmountRetryLoop outcome (outcome idx) (idx + 1) fuel).2.1 := by
            omega
          have h2 := hd j' h1
          have harr : idx + (j' + 1) = idx + 1 + j' := by omega
          rw [harr]
          exact h2
      · have hnz : ¬ ((unmountRetryLoop outcome (outcome idx) (idx + 1) fuel).2.1 + 1 = 0) := by
          omega
        rw [if_neg hnz, he]
        by_cases hz : (unmountRetryLoop outcome (outcome idx) (idx + 1) fuel).2.1 = 0
        · rw [if_pos hz, hz]
          congr 1
        · rw [if_neg hz]
          congr 1
          omega
      · intro hlt
        exact hf (by omega)
    · rw [hloop0, if_neg hr]
      dsimp only
      refine ⟨Nat.zero_le _, rfl, ?_, ?_, by simp, ?_⟩
      · intro h; cases h
      · intro j h; cases h
      · intro _
        simpa using hr

/-- Claim C9: the teardown handle's unmount retry policy.  The handle makes
at most 51 unmount calls (1 initial + at most 50 retries); every call other
than the last happens only because the previous call returned `EBUSY` or
`EAGAIN`; when the budget is not exhausted, the last call's result is not
retriable (first success or first other error stops the loop); one fixed
50ms sleep precedes each retry; and in the concrete scenario where the
first three unmount attempts fail with `EBUSY` and the fourth succeeds, the
handle performs exactly four unmount calls, sleeps three times, and
reports success. -/
theorem undoBinds_retry_policy :
    (∀ (outcome : Nat → Option UnmountErr) (outerErr : Option UnmountErr),
      (undoBinds outcome outerErr).2.1 ≤ 51) ∧
    (∀ (outcome : Nat → Option UnmountErr) (outerErr : Option UnmountErr) (i : Nat),
      i + 1 < (undoBinds outcome outerErr).2.1 → retriable (outcome i) = true) ∧
    (∀ (outcome : Nat → Option UnmountErr) (outerErr : Option UnmountErr),
      (undoBinds outcome outerErr).2.1 < 51 →
      retriable (outcome ((undoBinds outcome outerErr).2.1 - 1)) = false) ∧
    (∀ (outcome : Nat → Option UnmountErr) (outerErr : Option UnmountErr),
      (undoBinds outcome outerErr).2.2 =
        List.replicate ((undoBinds outcome outerErr).2.1 - 1) 50) ∧
    (undoBinds (fun k => if k < 3 then some UnmountErr.ebusy else none) none
      = (none, 4, [50, 50, 50])) := by
  have main : ∀ (outcome : Nat → Option UnmountErr) (outerErr : Option UnmountErr),
      (undoBinds outcome outerErr).2.1 ≤ 51 ∧
      (∀ i, i + 1 < (undoBinds outcome outerErr).2.1 → retriable (outcome i) = true) ∧
      ((undoBinds outcome outerErr).2.1 < 51 →
        retriable (outcome ((undoBinds outcome outerErr).2.1 - 1)) = false) ∧
      (undoBinds outcome outerErr).2.2 =
        List.replicate ((undoBinds outcome outerErr).2.1 - 1) 50 := by
    intro outcome outerErr
    unfold undoBinds
    cases h0 : outcome 0 with
    | none =>
      dsimp only
      refine ⟨by omega, ?_, ?_, rfl⟩
      · intro i hi
        exact absurd hi (by omega)
      · intro _
        rw [h0]
        rfl
    | some e =>
      obtain ⟨ha, hb, hc, hd, he, hf⟩ := unmountRetryLoop_spec outcome 50 (some e) 1
      dsimp only
      refine ⟨by omega, ?_, ?_, ?_⟩
      · intro i hi
        cases i with
        | zero =>
          rw [h0]
          exact hc (by omega)
        | succ i' =>
          have h2 := hd i' (by omega)
          have harr : i' + 1 = 1 + i' := by omega
          rw [harr]
          exact h2
      · intro hlt
        have hstop := hf (by omega)
        rw [he] at hstop
        by_cases hz : (unmountRetryLoop outcome (some e) 1 50).2.1 = 0
        · rw [if_pos hz] at hstop
          rw [hz]
          rw [(by omega : 0 + 1 - 1 = 0), h0]
          exact hstop
        · rw [if_neg hz] at hstop
          rw [(by omega : (unmountRetryLoop outcome (some e) 1 50).2.1 + 1 - 1 =
            1 + (unmountRetryLoop outcome (some e) 1 50).2.1 - 1)]
          exact hstop
      · rw [hb]
        congr 1
  refine ⟨fun o oe => (main o oe).1, fun o oe => (main o oe).2.1,
    fun o oe => (main o oe).2.2.1, fun o oe => (main o oe).2.2.2, by decide⟩

/-- Witness for the C9 theorem at the concrete EBUSY-EBUSY-EBUSY-success
outcome sequence: the second call was preceded by a retriable result, the
fourth (last) call's result is not retriable, and the call count is within
the 51-call bound. -/
theorem undoBinds_retry_policy_witness :
    (undoBinds (fun k => if k < 3 then some UnmountErr.ebusy else none) none).2.1 ≤ 51 ∧
    retriable ((fun k => if k < 3 then some UnmountErr.ebusy else none) 1) = true ∧
    retriable ((fun k => if k < 3 then some UnmountErr.ebusy else none)
      ((undoBinds (fun k => if k < 3 then some UnmountErr.ebusy else none) none).2.1 - 1))
      = false :=
  ⟨undoBinds_retry_policy.1 (fun k => if k < 3 then some UnmountErr.ebusy else none) none,
   undoBinds_retry_policy.2.1 (fun k => if k < 3 then some UnmountErr.ebusy else none) none
     1 (by decide),
   undoBinds_retry_policy.2.2.1 (fun k => if k < 3 then some UnmountErr.ebusy else none) none
     (by decide)⟩

/-! ## Resource limit parsing (`parseRlimits`, lines 426-439, and
`rlimitsMap`, lines 31-51) -/

/-- The fixed `rlimitsMap` table, with the numeric values of the Linux
`unix.RLIMIT_*` constants. -/
def rlimitsMap : List (String × Nat) :=
  [("RLIMIT_AS", 9), ("RLIMIT_CORE", 4), ("RLIMIT_CPU", 0), ("RLIMIT_DATA", 2),
   ("RLIMIT_FSIZE", 1), ("RLIMIT_LOCKS", 10), ("RLIMIT_MEMLOCK", 8),
   ("RLIMIT_MSGQUEUE", 12), ("RLIMIT_NICE", 13), ("RLIMIT_NOFILE", 7),
   ("RLIMIT_NPROC", 6), ("RLIMIT_RSS", 5), ("RLIMIT_RTPRIO", 14),
   ("RLIMIT_RTTIME", 15), ("RLIMIT_SIGPENDING", 11), ("RLIMIT_STACK", 3)]

/-- The map lookup `rlimitsMap[...]` with its `recognized` flag folded into
an `Option`. -/
def rlimitsLookup (s : String) : Option Nat :=
  (rlimitsMap.find? (fun e => e.1 == s)).map (fun e => e.2)

/-- One entry of `spec.Process.Rlimits` (OCI `POSIXRlimit`). -/
structure POSIXRlimit where
  type : String
  hard : Nat
  soft : Nat
deriving DecidableEq, Repr

/-- `unix.Rlimit`. -/
structure Rlimit where
  cur : Nat
  max : Nat
deriving DecidableEq, Repr

/-- Model of Go's `strings.ToUpper`: upper-case every character. -/
def goToUpper (s : String) : String := ⟨s.data.map Char.toUpper⟩

/-- The parsed result under construction, modelled as a lookup function
(the Go `map[int]unix.Rlimit`). -/
def RlimitMap : Type := Nat → Option Rlimit

/-- `parsed[resource] = ...`: map assignment, overwriting any earlier
value for the same resource. -/
def rlimitMapInsert (m : RlimitMap) (resource : Nat) (v : Rlimit) : RlimitMap :=
  fun r => if r = resource then some v else m r

/-- The loop of `parseRlimits` continued from a partial map: for each
entry, look `strings.ToUpper(limit.Type)` up in `rlimitsMap`; an
unrecognised name is the error `error parsing limit type %q`; otherwise
store `unix.Rlimit{Cur: limit.Soft, Max: limit.Hard}` under the resource
id. -/
def parseRlimitsFrom (m : RlimitMap) : List POSIXRlimit → Except String RlimitMap
  | [] => .ok m
  | limit :: rest =>
    match rlimitsLookup (goToUpper limit.type) with
    | none => .error ("error parsing limit type " ++ limit.type)
    | some resource =>
      parseRlimitsFrom (rlimitMapInsert m resource ⟨limit.soft, limit.hard⟩) rest

/-- `parseRlimits` (lines 426-439) for a present process descriptor:
run the loop from the freshly made empty map. -/
def parseRlimits (limits : List POSIXRlimit) : Except String RlimitMap :=
  parseRlimitsFrom (fun _ => none) limits

/-- Upper-casing of the type name of an entry, the normal form under which
`parseRlimits` matches names. -/
def normRlimitType (l : POSIXRlimit) : POSIXRlimit :=
  { l with type := goToUpper l.type }

theorem parseRlimitsFrom_ok_of_norm_eq :
    ∀ (a b : List POSIXRlimit), a.map normRlimitType = b.map normRlimitType →
    ∀ (m0 m : RlimitMap), parseRlimitsFrom m0 a = .ok m → parseRlimitsFrom m0 b = .ok m := by
  intro a
  induction a with
  | nil =>
    intro b hab m0 m h
    cases b with
    | nil => exact h
    | cons hb tb => simp at hab
  | cons ha ta ih =>
    intro b hab m0 m h
    cases b with
    | nil => simp at hab
    | cons hb tb =>
      simp only [List.map_cons, List.cons.injEq] at hab
      have htype : goToUpper ha.type = goToUpper hb.type := by
        have := congrArg POSIXRlimit.type hab.1
        simpa [normRlimitType] using this
      have hhard : ha.hard = hb.hard := by
        have := congrArg POSIXRlimit.hard hab.1
        simpa [normRlimitType] using this
      have hsoft : ha.soft = hb.soft := by
        have := congrArg POSIXRlimit.soft hab.1
        simpa [normRlimitType] using this
      unfold parseRlimitsFrom at h ⊢
      rw [← htype]
      cases hlook : rlimitsLookup (goToUpper ha.type) with
      | none => rw [hlook] at h; cases h
      | some resource =>
        rw [hlook] at h
        rw [← hhard, ← hsoft]
        exact ih tb hab.2 _ m h

theorem parseRlimitsFrom_error_of_unknown :
    ∀ (limits : List POSIXRlimit) (l : POSIXRlimit), l ∈ limits →
    rlimitsLookup (goToUpper l.type) = none →
    ∀ (m0 : RlimitMap), ∃ msg, parseRlimitsFrom m0 limits = .error msg := by
  intro limits
  induction limits with
  | nil =>
    intro l hl
    cases hl
  | cons hd tl ih =>
    intro l hl hlook m0
    rcases List.mem_cons.mp hl with rfl | hl'
    · refine ⟨"error parsing limit type " ++ l.type, ?_⟩
      unfold parseRlimitsFrom
      rw [hlook]
    · unfold parseRlimitsFrom
      cases hlook2 : rlimitsLookup (goToUpper hd.type) with
      | none => exact ⟨"error parsing limit type " ++ hd.type, rfl⟩
      | some resource => exact ih l hl' hlook _

theorem parseRlimitsFrom_last_wins :
    ∀ (limits : List POSIXRlimit) (m0 m : RlimitMap),
    parseRlimitsFrom m0 limits = .ok m → ∀ r,
    m r = match limits.reverse.find?
        (fun l => rlimitsLookup (goToUpper l.type) == some r) with
      | some l => some ⟨l.soft, l.hard⟩
      | none => m0 r := by
  intro limits
  induction limits with
  | nil =>
    intro m0 m h r
    cases h
    rfl
  | cons hd tl ih =>
    intro m0 m h r
    unfold parseRlimitsFrom at h
    cases hlook : rlimitsLookup (goToUpper hd.type) with
    | none => rw [hlook] at h; cases h
    | some resource =>
      rw [hlook] at h
      have hrec := ih _ m h r
      rw [hrec]
      have hrev : (hd :: tl).reverse = tl.reverse ++ [hd] := by simp
      rw [hrev, List.find?_append]
      cases hfind : tl.reverse.find? (fun l => rlimitsLookup (goToUpper l.type) == some r) with
      | some x => simp [hfind]
      | none =>
        simp only [hfind, Option.none_orElse]
        by_cases hr : resource = r
        · subst hr
          simp [List.find?, hlook, rlimitMapInsert]
        · have : (rlimitsLookup (goToUpper hd.type) == some r) = false := by
            simp [hlook, hr]
          simp [List.find?, this, rlimitMapInsert, Ne.symm hr]

/-- Claim C10: resource-limit parsing matches type names case-insensitively
(two lists whose entries agree after upper-casing the names parse to the
same map), returns an error whenever some entry's upper-cased name is
absent from the fixed table, and under success the stored pair for a
resource is the `(soft, hard)` pair of the last entry mapping to that
resource — earlier duplicates are overwritten. -/
theorem parseRlimits_policy :
    (∀ (a b : List POSIXRlimit), a.map normRlimitType = b.map normRlimitType →
      ∀ m, parseRlimits a = .ok m → parseRlimits b = .ok m) ∧
    (∀ (limits : List POSIXRlimit) (l : POSIXRlimit), l ∈ limits →
      rlimitsLookup (goToUpper l.type) = none →
      ∃ msg, parseRlimits limits = .error msg) ∧
    (∀ (limits : List POSIXRlimit) (m : RlimitMap), parseRlimits limits = .ok m → ∀ r,
      m r = match limits.reverse.find?
          (fun l => rlimitsLookup (goToUpper l.type) == some r) with
        | some l => some ⟨l.soft, l.hard⟩
        | none => none) :=
  ⟨fun a b hab m h => parseRlimitsFrom_ok_of_norm_eq a b hab _ m h,
   fun limits l hl hlook => parseRlimitsFrom_error_of_unknown limits l hl hlook _,
   fun limits m h r => parseRlimitsFrom_last_wins limits _ m h r⟩

/-- Witness for the C10 theorem: `rlimit_core` parses like `RLIMIT_CORE`
(case-insensitivity), `RLIMIT_BOGUS` is rejected, and of two entries for
the core resource the later `(soft 10, hard 20)` pair is the one retained
under resource id 4. -/
theorem parseRlimits_policy_witness :
    parseRlimits [⟨"RLIMIT_CORE", 2, 1⟩]
      = .ok (rlimitMapInsert (fun _ => none) 4 ⟨1, 2⟩) ∧
    (∃ msg, parseRlimits [⟨"RLIMIT_BOGUS", 0, 0⟩] = .error msg) ∧
    (rlimitMapInsert (rlimitMapInsert (fun _ => none) 4 ⟨1, 2⟩) 4 ⟨10, 20⟩) 4
      = some ⟨10, 20⟩ ∧ (rlimitMapInsert (fun _ => none) 4 ⟨1, 2⟩) 4 = some ⟨1, 2⟩ :=
  ⟨parseRlimits_policy.1 [⟨"rlimit_core", 2, 1⟩] [⟨"RLIMIT_CORE", 2, 1⟩] (by decide)
      (rlimitMapInsert (fun _ => none) 4 ⟨1, 2⟩) rfl,
   parseRlimits_policy.2.1 [⟨"RLIMIT_BOGUS", 0, 0⟩] ⟨"RLIMIT_BOGUS", 0, 0⟩ (by decide)
      (by decide),
   by
     rw [parseRlimits_policy.2.2 [⟨"RLIMIT_CORE", 2, 1⟩, ⟨"RLIMIT_CORE", 20, 10⟩]
       (rlimitMapInsert (rlimitMapInsert (fun _ => none) 4 ⟨1, 2⟩) 4 ⟨10, 20⟩) rfl 4]
     decide,
   by
     rw [parseRlimits_policy.2.2 [⟨"RLIMIT_CORE", 2, 1⟩]
       (rlimitMapInsert (fun _ => none) 4 ⟨1, 2⟩) rfl 4]
     decide⟩

end Chroot
